import Mathlib

/-!
Verification of the image ingestion and real-time broadcast pipeline.

The server code (`src/server/routes.ts`, `src/server/storage.ts`) is shallowly
embedded below.  JavaScript strings are modelled as `String` / `List Char`,
byte buffers as `List Nat` (each entry `< 256`), and the external libraries
(sharp, dns, node-fetch, URL parsing) as oracle functions supplied as
parameters, so every definition is executable.  Helper functions named `js…`
model the semantics of the corresponding JavaScript string/array methods.
-/

namespace ImageApp

/-! ### Models of JavaScript primitives -/

/-- Model of JS `String.prototype.split(sep)` for a one-character separator,
on the character-list view of the string.  `"".split` gives `[""]`, a
trailing separator yields a trailing empty part, exactly as in JS. -/
def jsSplit (sep : Char) : List Char → List (List Char) :=
  List.foldr
    (fun c r =>
      if c = sep then [] :: r
      else
        match r with
        | h :: t => (c :: h) :: t
        | [] => [[c]])
    [[]]

/-- Model of JS `String.prototype.startsWith` (first argument is the string,
second the candidate leading segment). -/
def jsStartsWith : List Char → List Char → Bool
  | _, [] => true
  | [], _ :: _ => false
  | c :: cs, p :: ps => c == p && jsStartsWith cs ps

/-- Model of JS `String.prototype.includes pat`: some suffix of the string
starts with `pat`. -/
def jsIncludes (pat : List Char) : List Char → Bool
  | [] => jsStartsWith [] pat
  | c :: rest => jsStartsWith (c :: rest) pat || jsIncludes pat rest

/-- Model of JS `String.prototype.toLowerCase` on the ASCII fragment
relevant to hostnames and IP literals. -/
def jsToLowerChar (c : Char) : Char :=
  if 'A' ≤ c ∧ c ≤ 'Z' then Char.ofNat (c.toNat + 32) else c

/-- Lowercasing of a whole character list. -/
def jsToLower (cs : List Char) : List Char := cs.map jsToLowerChar

/-- The decimal digit character for `k < 10`. -/
def digitChar : Nat → Char
  | 0 => '0' | 1 => '1' | 2 => '2' | 3 => '3' | 4 => '4'
  | 5 => '5' | 6 => '6' | 7 => '7' | 8 => '8' | _ => '9'

/-- Fuelled canonical decimal printer (the fuel makes it structurally
recursive, so it reduces inside the kernel). -/
def decCharsAux : Nat → Nat → List Char
  | 0, _ => []
  | fuel + 1, n =>
    if n < 10 then [digitChar n]
    else decCharsAux fuel (n / 10) ++ [digitChar (n % 10)]

/-- Model of JS `Number.prototype.toString()` for a natural number: the
canonical decimal numeral. -/
def decChars (n : Nat) : List Char := decCharsAux (n + 1) n

/-- Numeric value of an all-digit character list; `none` when the list is
empty or has a non-digit.  Used to model the successful, canonical cases of
JS `parseInt(str, 10)` (see `ipv4PartOk`). -/
def toNatL? (p : List Char) : Option Nat :=
  if p ≠ [] ∧ p.all Char.isDigit then
    some (p.foldl (fun a c => a * 10 + (c.toNat - 48)) 0)
  else none

/-! ### base64 (model of `Buffer.prototype.toString('base64')` and
`Buffer.from(_, 'base64')`) -/

/-- The standard base64 alphabet, RFC 4648, as used by Node buffers. -/
def b64Alphabet : List Char :=
  "ABCDEFGHIJKLMNOPQRSTUVWXYZabcdefghijklmnopqrstuvwxyz0123456789+/".data

/-- Character for a 6-bit group. -/
def b64char (n : Nat) : Char := b64Alphabet.getD n 'A'

/-- Index of a character in a list, counting from `i`. -/
def lookupIdx : List Char → Char → Nat → Option Nat
  | [], _, _ => none
  | x :: xs, c, i => if x = c then some i else lookupIdx xs c (i + 1)

/-- 6-bit value of a base64 alphabet character (`none` for padding and for
characters outside the alphabet). -/
def b64val? (c : Char) : Option Nat := lookupIdx b64Alphabet c 0

/-- Base64 encoding of a byte list, with `=` padding — the output of
`Buffer.prototype.toString('base64')`. -/
def encodeB64 : List Nat → List Char
  | a :: b :: c :: rest =>
    b64char (a / 4) :: b64char (a % 4 * 16 + b / 16) ::
      b64char (b % 16 * 4 + c / 64) :: b64char (c % 64) :: encodeB64 rest
  | [a, b] => [b64char (a / 4), b64char (a % 4 * 16 + b / 16), b64char (b % 16 * 4), '=']
  | [a] => [b64char (a / 4), b64char (a % 4 * 16), '=', '=']
  | [] => []

/-- Strict base64 decoding: four-character groups, `=` padding allowed only
at the very end.  This is the decoder used to state the round-trip claim. -/
def decodeB64 : List Char → Option (List Nat)
  | [] => some []
  | c1 :: c2 :: c3 :: c4 :: rest =>
    match b64val? c1, b64val? c2 with
    | some a, some b =>
      if c3 = '=' then
        if c4 = '=' ∧ rest = [] then some [a * 4 + b / 16] else none
      else
        match b64val? c3 with
        | some c =>
          if c4 = '=' then
            if rest = [] then some [a * 4 + b / 16, b % 16 * 16 + c / 4] else none
          else
            match b64val? c4 with
            | some d =>
              (decodeB64 rest).map
                (fun tl => (a * 4 + b / 16) :: (b % 16 * 16 + c / 4) :: (c % 4 * 64 + d) :: tl)
            | none => none
        | none => none
    | _, _ => none
  | _ => none

/-- Byte recovery from a stream of 6-bit values (groups of four; trailing
groups of two or three give one or two bytes). -/
def decodeVals : List Nat → List Nat
  | a :: b :: c :: d :: rest =>
    (a * 4 + b / 16) :: (b % 16 * 16 + c / 4) :: (c % 4 * 64 + d) :: decodeVals rest
  | [a, b] => [a * 4 + b / 16]
  | [a, b, c] => [a * 4 + b / 16, b % 16 * 16 + c / 4]
  | _ => []

/-- Model of Node's lenient `Buffer.from(str, 'base64')`: characters outside
the alphabet (and padding) are skipped, then the 6-bit values are grouped. -/
def jsB64Decode (s : String) : List Nat :=
  decodeVals (s.data.filterMap b64val?)

/-! ### JS truthiness helpers (`a || b`, `a ?? b`, template interpolation) -/

/-- JS truthiness of an optional string: `undefined` and `''` are falsy. -/
def jsTruthyS : Option String → Bool
  | some s => !(s == "")
  | none => false

/-- Model of `a || b` where `a` is an optional string and `b` a string. -/
def jsOrS (a : Option String) (b : String) : String :=
  match a with
  | some s => if s == "" then b else s
  | none => b

/-- Model of `a || b` where both sides are optionally-undefined strings. -/
def jsOrOptS (a b : Option String) : Option String :=
  if jsTruthyS a then a else b

/-- Model of interpolating a possibly-`undefined` string into a template
literal: `undefined` prints as `"undefined"`. -/
def jsUndefToStr : Option String → String
  | some s => s
  | none => "undefined"

/-! ### The private-address classifier (`src/server/routes.ts` lines 76-123) -/

/-- Model of the per-octet test inside `isIPv4`:
`const num = parseInt(part, 10); return num >= 0 && num <= 255 && part === num.toString();`.
The JS test passes exactly when `part` is the canonical decimal numeral of
some `num ≤ 255` (when it passes, `parseInt` returns the digit value of the
canonical numeral; every failing string fails here too: a negative,
padded, or otherwise non-canonical `part` differs from `num.toString()`,
and `NaN` fails the range test). -/
def ipv4PartOk (p : List Char) : Bool :=
  match toNatL? p with
  | some n => decide (n ≤ 255) && p == decChars n
  | none => false

/-- `isIPv4` from the source: exactly four `'.'`-separated parts, each a
strict decimal octet (`parts` is written out instead of bound with a `let`,
for ease of rewriting). -/
def isIPv4L (cs : List Char) : Bool :=
  (jsSplit '.' cs).length == 4 && (jsSplit '.' cs).all ipv4PartOk

/-- Value of a part after `parts.map(Number)`; on the `isIPv4` path every
part is a canonical numeral, for which `Number` agrees with `toNatL?`. -/
def partNum (p : List Char) : Nat := (toNatL? p).getD 0

/-- The octet at position `i` of `ip.split('.').map(Number)` (the source's
`parts[0]` / `parts[1]`). -/
def octetAt (cs : List Char) (i : Nat) : Nat :=
  ((jsSplit '.' cs).map partNum).getD i 0

/-- `isPrivateIP` from the source, on the character-list view (the source's
`parts` and `ipLower` bindings are written out instead of bound with
`let`s). -/
def isPrivateIPL (cs : List Char) : Bool :=
  if isIPv4L cs then
    octetAt cs 0 == 127 || octetAt cs 0 == 10 ||
      (octetAt cs 0 == 172 && decide (16 ≤ octetAt cs 1) &&
        decide (octetAt cs 1 ≤ 31)) ||
      (octetAt cs 0 == 192 && octetAt cs 1 == 168) ||
      (octetAt cs 0 == 169 && octetAt cs 1 == 254) || octetAt cs 0 == 0
  else
    jsToLower cs == "::1".data || jsToLower cs == "[::1]".data ||
      jsStartsWith (jsToLower cs) "fc".data ||
      jsStartsWith (jsToLower cs) "fd".data ||
      jsStartsWith (jsToLower cs) "fe80:".data ||
      jsIncludes "::ffff:".data (jsToLower cs)

/-- `isIPv4` at the string level. -/
def isIPv4 (s : String) : Bool := isIPv4L s.data

/-- `isPrivateIP` at the string level. -/
def isPrivateIP (s : String) : Bool := isPrivateIPL s.data

/-! ### The URL safety validator (`validateImageUrl`, lines 125-169) -/

/-- The fields of a parsed `new URL(...)` that the validator consumes. -/
structure UrlParts where
  protocol : String
  hostname : String

/-- Result shape of `validateImageUrl`. -/
structure ValidationResult where
  valid : Bool
  error : Option String

/-- `validateImageUrl` from the source.  `parse` is the result of
`new URL(urlString)` (`none` models the constructor throwing), and `dns`
models `dns.lookup(hostname, { all: true }).catch(() => [])`: the list of
resolved addresses, with resolution failure mapped to `[]` by the
`.catch`.  `lowerHost` is the `const hostname = url.hostname.toLowerCase()`
binding. -/
def lowerHost (u : UrlParts) : String := String.mk (jsToLower u.hostname.data)

def validateImageUrl : Option UrlParts → (String → List String) → ValidationResult
  | none, _ => ⟨false, some "Invalid URL format"⟩
  | some u, dns =>
    if ¬(u.protocol = "http:" ∨ u.protocol = "https:") then
      ⟨false, some "Only HTTP and HTTPS protocols are allowed"⟩
    else if lowerHost u = "localhost" ∨ lowerHost u = "0.0.0.0" then
      ⟨false, some "Localhost URLs are not allowed"⟩
    else if isPrivateIP (lowerHost u) then
      ⟨false, some "Private IP addresses are not allowed"⟩
    else if (dns (lowerHost u)).length = 0 then
      ⟨false, some "Failed to resolve hostname"⟩
    else if (dns (lowerHost u)).any isPrivateIP then
      ⟨false, some "URL resolves to a private IP address"⟩
    else
      ⟨true, none⟩

/-! ### Metadata extraction (`getImageMetadata`, lines 171-190) -/

/-- The fields of `sharp(buffer).metadata()` the code reads; each may be
`undefined` even on success. -/
structure SharpMeta where
  width : Option Nat
  height : Option Nat
  format : Option String

/-- Return shape of `getImageMetadata`. -/
structure ExtractedMeta where
  width : Option Nat
  height : Option Nat
  format : Option String
  size : Nat
deriving DecidableEq, Repr

/-- `getImageMetadata` from the source.  The oracle `sharp` models
`sharp(buffer).metadata()`; `none` models the promise rejecting, which the
`catch` block turns into the degraded result. -/
def getImageMetadata (sharp : List Nat → Option SharpMeta) (buffer : List Nat) :
    ExtractedMeta :=
  match sharp buffer with
  | some m => ⟨m.width, m.height, m.format, buffer.length⟩
  | none => ⟨none, none, some "unknown", buffer.length⟩

/-! ### The image store (`src/server/storage.ts`) -/

/-- The stored image record (`Image` in `shared/schema.ts`); `Option` fields
model nullable columns, `uploadedAt` is an abstract timestamp. -/
structure Image where
  id : String
  type : String
  data : String
  filename : Option String
  format : Option String
  width : Option Nat
  height : Option Nat
  size : Option Nat
  uploadedAt : Nat
deriving DecidableEq, Repr

/-- The argument of `storeImage` (`InsertImage`). -/
structure InsertImage where
  type : String
  data : String
  filename : Option String
  format : Option String
  width : Option Nat
  height : Option Nat
  size : Option Nat
deriving DecidableEq, Repr

/-- JS `Map.prototype.set`: replace in place if the key is present,
otherwise append (insertion order preserved). -/
def mapSet : List (String × Image) → String → Image → List (String × Image)
  | [], k, v => [(k, v)]
  | (k', v') :: rest, k, v =>
    if k' = k then (k, v) :: rest else (k', v') :: mapSet rest k v

/-- JS `Map.prototype.get` (as `Option`). -/
def mapGet : List (String × Image) → String → Option Image
  | [], _ => none
  | (k', v') :: rest, k => if k' = k then some v' else mapGet rest k

/-- State of `MemStorage`: the `images` map and the `currentImageId`
pointer. -/
structure StoreState where
  images : List (String × Image)
  currentImageId : Option String
deriving DecidableEq, Repr

/-- The constructor state: empty map, no current image. -/
def emptyStore : StoreState := ⟨[], none⟩

/-- The record built inside `storeImage` (with `?? null` kept as the
`Option`). -/
def mkStoredImage (id : String) (now : Nat) (ins : InsertImage) : Image :=
  ⟨id, ins.type, ins.data, ins.filename, ins.format, ins.width, ins.height,
    ins.size, now⟩

/-- `MemStorage.storeImage`: build the record under a fresh id (`randomUUID`
modelled as the caller-supplied `id`), insert it, and point `currentImageId`
at it. -/
def storeImage (st : StoreState) (id : String) (now : Nat) (ins : InsertImage) :
    Image × StoreState :=
  let image := mkStoredImage id now ins
  (image, ⟨mapSet st.images id image, some id⟩)

/-- `MemStorage.getCurrentImage`: `undefined` when `currentImageId` is falsy
(unset — or the empty string, also falsy in JS), else a map lookup. -/
def getCurrentImage (st : StoreState) : Option Image :=
  match st.currentImageId with
  | none => none
  | some cid => if cid = "" then none else mapGet st.images cid

/-- `MemStorage.getImage`. -/
def getImage (st : StoreState) (id : String) : Option Image :=
  mapGet st.images id

/-! ### The broadcast hub (`wss.on('connection')`, lines 31-74) -/

/-- Subscriber connection handle. -/
abbrev ConnId := Nat

/-- The logical WebSocket messages of the protocol. -/
inductive WsMessage where
  | imageUpdate (img : Image)
  | ping (timestamp : Nat)
  | pong (timestamp : Nat)
deriving DecidableEq, Repr

/-- The events the server reacts to.  The source registers listeners for a
new connection and, per connection, for `close` and `error` only. -/
inductive HubEvent where
  | connect (c : ConnId)
  | close (c : ConnId)
  | error (c : ConnId)
deriving DecidableEq, Repr

/-- How the `clients` set evolves: `clients.add(ws)` on connection,
`clients.delete(ws)` in the `close` and `error` handlers.  Nothing else
ever removes a client. -/
def hubStep (clients : List ConnId) : HubEvent → List ConnId
  | .connect c => if c ∈ clients then clients else clients ++ [c]
  | .close c => clients.erase c
  | .error c => clients.erase c

/-- The per-connection event names that `wss.on('connection')` registers
handlers for.  There is no `'message'` listener. -/
def registeredConnectionEvents : List String := ["close", "error"]

/-- Frames the server sends back in reaction to an incoming frame from a
subscriber.  The connection handler registers no `message` listener, so
every incoming frame — including a `ping` — produces no reply. -/
def wsReplyToMessage (_incoming : WsMessage) : List WsMessage := []

/-- The connection handler: add the socket to `clients`, then send the
current image if one exists and the socket is still open.  Returns the new
client set and the frames pushed to the joining subscriber. -/
def onConnection (st : StoreState) (clients : List ConnId) (c : ConnId)
    (isOpen : Bool) : List ConnId × List WsMessage :=
  (hubStep clients (.connect c),
    match getCurrentImage st with
    | some img => if isOpen then [.imageUpdate img] else []
    | none => [])

/-- `broadcastImageUpdate`: send the `image_update` frame to every client
whose `readyState` is `OPEN`. -/
def broadcastImageUpdate (clients : List ConnId) (isOpen : ConnId → Bool)
    (img : Image) : List (ConnId × WsMessage) :=
  clients.filterMap fun c => if isOpen c then some (c, .imageUpdate img) else none

/-! ### The HTTP handlers (`app.post('/api/v1/image/upload')` and the
multipart route, lines 12-26 and 192-377) -/

/-- A parsed request body accepted by `imageUploadSchema` (the Zod union of
`base64ImageSchema` and `urlImageSchema`; the URL variant's optional
`metadata.source` is never read by the handler). -/
inductive UploadRequest where
  | base64 (data : String) (filename : Option String) (format : Option String)
  | url (url : String)
deriving Repr

/-- The response of `fetch` when the promise resolves; `contentLength` is
the parsed `content-length` header when present and numeric (a missing or
non-numeric header fails the `contentLength && parseInt(contentLength) > …`
guard the same way `none` does). -/
structure FetchResp where
  ok : Bool
  contentType : Option String
  contentLength : Option Nat
  body : List Nat

/-- The external effects the routes consume, as oracles: `sharp` metadata
extraction, `new URL` parsing, DNS resolution, and `fetch` (`none` models
the fetch promise rejecting, e.g. network error or the 10s abort). -/
structure Env where
  sharp : List Nat → Option SharpMeta
  parseUrl : String → Option UrlParts
  dns : String → List String
  fetch : String → Option FetchResp

/-- The outcome the route reports: `ok` is the success JSON (carrying the
stored image), `err` a `res.status(code).json({success:false, message})`. -/
inductive ApiResponse where
  | ok (img : Image)
  | err (status : Nat) (message : String)
deriving DecidableEq, Repr

/-- Whether a response is the success JSON. -/
def isOk : ApiResponse → Bool
  | .ok _ => true
  | .err _ _ => false

/-- The regex strip `data.replace(/^data:image\/[a-z]+;base64,/, '')`:
remove a leading `data:image/<letters>;base64,` if present. -/
def stripDataUriPrefix (s : String) : String :=
  let cs := s.data
  if cs.take 11 = "data:image/".data then
    let rest := cs.drop 11
    let letters := rest.takeWhile fun c => 'a' ≤ c ∧ c ≤ 'z'
    if letters ≠ [] ∧ (rest.drop letters.length).take 8 = ";base64,".data then
      String.mk ((rest.drop letters.length).drop 8)
    else s
  else s

/-- `validatedData.url.split('/').pop() || 'url-image'`. -/
def urlFilename (u : String) : String :=
  match (jsSplit '/' u.data).getLast? with
  | some p => if p = [] then "url-image" else String.mk p
  | none => "url-image"

/-- `contentType.split('/')[1] || 'unknown'`. -/
def ctFormatFallback (ct : String) : String :=
  match (jsSplit '/' ct.data)[1]? with
  | some p => if p = [] then "unknown" else String.mk p
  | none => "unknown"

/-- The post-processing every source type converges on (lines 264-282 and
326-354): extract metadata, build the
`data:image/<format>;base64,<payload>` string, store, broadcast.  The third
component of the result is the list of images handed to
`broadcastImageUpdate`. -/
def finishIngest (sharp : List Nat → Option SharpMeta) (st : StoreState)
    (id : String) (now : Nat) (typ : String) (buf : List Nat)
    (filename : String) (fallbackFormat : Option String) :
    ApiResponse × StoreState × List Image :=
  let meta := getImageMetadata sharp buf
  let base64String :=
    "data:image/" ++ jsUndefToStr meta.format ++ ";base64," ++
      String.mk (encodeB64 buf)
  let ins : InsertImage :=
    ⟨typ, base64String, some filename, jsOrOptS meta.format fallbackFormat,
      meta.width, meta.height, some meta.size⟩
  let p := storeImage st id now ins
  (.ok p.1, p.2, [p.1])

/-- The 10 MB payload ceiling, `10 * 1024 * 1024`. -/
def sizeLimit : Nat := 10 * 1024 * 1024

/-- The JSON upload route (`app.post('/api/v1/image/upload')`).  `id` and
`now` model `randomUUID()` and `new Date()` at the commit. -/
def handleUpload (env : Env) (st : StoreState) (id : String) (now : Nat) :
    UploadRequest → ApiResponse × StoreState × List Image
  | .base64 d fn fmt =>
    let imageBuffer := jsB64Decode (stripDataUriPrefix d)
    let filename := jsOrS fn "base64-image"
    let format := jsOrS fmt "unknown"
    finishIngest env.sharp st id now "base64" imageBuffer filename (some format)
  | .url u =>
    let validation := validateImageUrl (env.parseUrl u) env.dns
    if validation.valid = false then
      (.err 400 (jsOrS validation.error "Invalid URL"), st, [])
    else
      match env.fetch u with
      | none => (.err 500 "Internal server error", st, [])
      | some resp =>
        if resp.ok = false then
          (.err 400 "Failed to fetch image from URL", st, [])
        else
          match resp.contentType with
          | none =>
            (.err 400 "URL does not point to an image (invalid content-type)", st, [])
          | some ct =>
            if jsStartsWith ct.data "image/".data = false then
              (.err 400 "URL does not point to an image (invalid content-type)", st, [])
            else if (match resp.contentLength with
                     | some n => decide (n > sizeLimit)
                     | none => false) then
              (.err 400 "Image too large (max 10MB)", st, [])
            else if resp.body.length > sizeLimit then
              (.err 400 "Image too large (max 10MB)", st, [])
            else
              finishIngest env.sharp st id now "url" resp.body (urlFilename u)
                (some (jsOrS (some (ctFormatFallback ct)) "unknown"))

/-- The multer `fileFilter` whitelist. -/
def allowedMimes : List String :=
  ["image/jpeg", "image/png", "image/gif", "image/webp"]

/-- `fileFilter`: accept exactly the whitelisted declared content types. -/
def fileFilterAccepts (mimetype : String) : Bool := allowedMimes.contains mimetype

/-- A multipart file as multer presents it. -/
structure MulterFile where
  originalname : String
  mimetype : String
  buffer : List Nat

/-- Outcome of the multer middleware: `fileFilter` rejects a non-whitelisted
declared type before the body is processed; the `limits.fileSize` bound
aborts an oversized upload with `LIMIT_FILE_SIZE` instead of truncating. -/
inductive MulterResult where
  | rejectedType
  | rejectedSize
  | accepted
deriving DecidableEq, Repr

/-- The multer gate for a single incoming file. -/
def multerCheck (mimetype : String) (size : Nat) : MulterResult :=
  if ¬fileFilterAccepts mimetype then .rejectedType
  else if size > sizeLimit then .rejectedSize
  else .accepted

/-- The multipart route handler body (after multer), lines 317-377. -/
def handleMultipart (env : Env) (st : StoreState) (id : String) (now : Nat) :
    Option MulterFile → ApiResponse × StoreState × List Image
  | none => (.err 400 "No image file provided", st, [])
  | some f =>
    finishIngest env.sharp st id now "upload" f.buffer f.originalname
      ((jsSplit '/' f.mimetype.data)[1]?.map String.mk)

/-- Result of the whole multipart endpoint: either a multer-level rejection
(surfaced to Express' error handling, outside this repository) or a handler
response. -/
inductive MultipartOutcome where
  | multerError (e : String)
  | response (r : ApiResponse)
deriving DecidableEq, Repr

/-- The multipart endpoint: multer gate, then the handler with `req.file`
present. -/
def multipartEndpoint (env : Env) (st : StoreState) (id : String) (now : Nat)
    (f : MulterFile) : MultipartOutcome × StoreState × List Image :=
  match multerCheck f.mimetype f.buffer.length with
  | .rejectedType =>
    (.multerError "Invalid file type. Only JPEG, PNG, GIF, and WebP are allowed.", st, [])
  | .rejectedSize => (.multerError "LIMIT_FILE_SIZE", st, [])
  | .accepted =>
    let p := handleMultipart env st id now (some f)
    (.response p.1, p.2.1, p.2.2)

/-! ### Spec-side definitions

These follow the wording of the specification (not the source); they exist
only to state claims for comparison against the embedded code. -/

/-- Value of a hexadecimal digit character. -/
def hexDigit? (c : Char) : Option Nat :=
  if '0' ≤ c ∧ c ≤ '9' then some (c.toNat - 48)
  else if 'a' ≤ c ∧ c ≤ 'f' then some (c.toNat - 87)
  else if 'A' ≤ c ∧ c ≤ 'F' then some (c.toNat - 55)
  else none

/-- First 16-bit group of an IPv6 literal: the (1–4) hex digits before the
first `':'`.  Used to state membership in the `fe80::/10` block the spec
names. -/
def ipv6FirstHextet? (s : String) : Option Nat :=
  let pre := s.data.takeWhile (· ≠ ':')
  if pre = [] ∨ 4 < pre.length then none
  else
    pre.foldl
      (fun acc c =>
        match acc, hexDigit? c with
        | some a, some d => some (a * 16 + d)
        | _, _ => none)
      (some 0)

/-- The private IPv4 ranges the spec lists, on the four octet values:
`127.0.0.0/8`, `10.0.0.0/8`, `172.16.0.0/12`, `192.168.0.0/16`,
`169.254.0.0/16`, `0.0.0.0/8`. -/
def quadPrivate (a b : Nat) : Prop :=
  a = 127 ∨ a = 10 ∨ (a = 172 ∧ 16 ≤ b ∧ b ≤ 31) ∨ (a = 192 ∧ b = 168) ∨
    (a = 169 ∧ b = 254) ∨ a = 0

/-- The string-level IPv6 conditions of the amended classification: the
lowercase form is the literal `::1` (bare or bracketed), starts with `fc`,
`fd` or `fe80:`, or contains `::ffff:` anywhere. -/
def ipv6StringCond (l : List Char) : Prop :=
  l = "::1".data ∨ l = "[::1]".data ∨ jsStartsWith l "fc".data = true ∨
    jsStartsWith l "fd".data = true ∨ jsStartsWith l "fe80:".data = true ∨
    jsIncludes "::ffff:".data l = true

/-- The amended classification: a string is flagged private exactly when it
is a strict dotted-quad IPv4 literal in one of the listed ranges, or it
satisfies one of the string-level IPv6 conditions (string tests — not
address-range tests — on the IPv6 side). -/
def amendedPrivateSpec (s : String) : Prop :=
  (∃ a b c d, a ≤ 255 ∧ b ≤ 255 ∧ c ≤ 255 ∧ d ≤ 255 ∧
    s.data = decChars a ++ '.' :: (decChars b ++ '.' :: (decChars c ++
      '.' :: decChars d)) ∧ quadPrivate a b) ∨
  ipv6StringCond (jsToLower s.data)

/-- A sequence of commits against a store state: each entry supplies the
fresh id, the timestamp, and the record to insert. -/
def foldStore (st : StoreState) (l : List (String × Nat × InsertImage)) : StoreState :=
  l.foldl (fun st e => (storeImage st e.1 e.2.1 e.2.2).2) st

/-- A sequence of commits against the store created empty at startup. -/
def commitAll (l : List (String × Nat × InsertImage)) : StoreState :=
  foldStore emptyStore l

/-- Helper for re-joining what `jsSplit` cut apart (comparison-side only). -/
def joinSep (sep : Char) : List (List Char) → List Char
  | [] => []
  | [p] => p
  | p :: ps => p ++ sep :: joinSep sep ps

/-! ## Lemmas about the store -/

theorem mapGet_mapSet_self (m : List (String × Image)) (k : String) (v : Image) :
    mapGet (mapSet m k v) k = some v := by
  induction m with
  | nil => simp [mapSet, mapGet]
  | cons p rest ih =>
    obtain ⟨k', v'⟩ := p
    by_cases h : k' = k <;> simp [mapSet, mapGet, h, ih]

theorem mapGet_mapSet_ne (m : List (String × Image)) (k k' : String) (v : Image)
    (h : k ≠ k') : mapGet (mapSet m k v) k' = mapGet m k' := by
  induction m with
  | nil => simp [mapSet, mapGet, h]
  | cons p rest ih =>
    obtain ⟨k₀, v₀⟩ := p
    by_cases h₀ : k₀ = k
    · subst h₀
      simp [mapSet, mapGet, h]
    · simp [mapSet, mapGet, h₀, ih]

theorem foldStore_append (st : StoreState) (l₁ l₂ : List (String × Nat × InsertImage)) :
    foldStore st (l₁ ++ l₂) = foldStore (foldStore st l₁) l₂ := by
  simp [foldStore, List.foldl_append]

theorem getImage_foldStore_of_not_mem (l : List (String × Nat × InsertImage))
    (st : StoreState) (id : String) (h : id ∉ l.map (·.1)) :
    getImage (foldStore st l) id = getImage st id := by
  induction l generalizing st with
  | nil => rfl
  | cons e rest ih =>
    simp only [List.map_cons, List.mem_cons] at h
    push_neg at h
    have step : foldStore st (e :: rest) =
        foldStore (storeImage st e.1 e.2.1 e.2.2).2 rest := rfl
    rw [step, ih _ h.2]
    simp [getImage, storeImage, mapGet_mapSet_ne _ _ _ _ (fun hh => h.1 hh.symm)]

theorem getCurrentImage_commit (st : StoreState) (id : String) (now : Nat)
    (ins : InsertImage) (h : id ≠ "") :
    getCurrentImage (storeImage st id now ins).2 = some (mkStoredImage id now ins) := by
  simp [getCurrentImage, storeImage, h, mapGet_mapSet_self]

/-- C6 (confirmed).  For every sequence of commits (with the fresh,
non-empty ids `randomUUID` supplies), after each commit `getCurrentImage`
returns the image committed last, every previously committed image remains
retrievable by its id unaltered, and `getCurrentImage` is `none` exactly
when the store has never committed anything. -/
theorem store_commit_contract (l : List (String × Nat × InsertImage))
    (hnodup : (l.map (·.1)).Nodup) (hne : ∀ id ∈ l.map (·.1), id ≠ "") :
    (∀ l' e, l = l' ++ [e] →
      getCurrentImage (commitAll l) = some (mkStoredImage e.1 e.2.1 e.2.2)) ∧
    (∀ l₁ e l₂, l = l₁ ++ e :: l₂ →
      getImage (commitAll l) e.1 = some (mkStoredImage e.1 e.2.1 e.2.2)) ∧
    (getCurrentImage (commitAll l) = none ↔ l = []) := by
  have hlast : ∀ l' e, l = l' ++ [e] →
      getCurrentImage (commitAll l) = some (mkStoredImage e.1 e.2.1 e.2.2) := by
    rintro l' e rfl
    have hid : e.1 ≠ "" := hne e.1 (by simp)
    rw [commitAll, foldStore_append]
    have : foldStore (foldStore emptyStore l') [e] =
        (storeImage (foldStore emptyStore l') e.1 e.2.1 e.2.2).2 := rfl
    rw [this, getCurrentImage_commit _ _ _ _ hid]
  refine ⟨hlast, ?_, ?_⟩
  · rintro l₁ e l₂ rfl
    rw [commitAll, foldStore_append]
    have hmem : e.1 ∉ l₂.map (·.1) := by
      simp only [List.map_append, List.map_cons] at hnodup
      exact (List.nodup_cons.mp (List.nodup_append.mp hnodup).2.1).1
    have step : foldStore (foldStore emptyStore l₁) (e :: l₂) =
        foldStore (storeImage (foldStore emptyStore l₁) e.1 e.2.1 e.2.2).2 l₂ := rfl
    rw [step, getImage_foldStore_of_not_mem _ _ _ hmem]
    simp [getImage, storeImage, mapGet_mapSet_self]
  · constructor
    · intro hnone
      rcases l.eq_nil_or_concat with rfl | ⟨l', e, rfl⟩
      · rfl
      · rw [hlast l' e (List.concat_eq_append l' e)] at hnone
        exact absurd hnone (by simp)
    · rintro rfl
      rfl

/-- Witness for C6: a concrete two-commit run. -/
theorem store_commit_contract_witness :
    getCurrentImage (commitAll [("a", 0, ⟨"base64", "d1", none, none, none, none, none⟩),
      ("b", 1, ⟨"url", "d2", none, none, none, none, none⟩)]) =
      some (mkStoredImage "b" 1 ⟨"url", "d2", none, none, none, none, none⟩) ∧
    getImage (commitAll [("a", 0, ⟨"base64", "d1", none, none, none, none, none⟩),
      ("b", 1, ⟨"url", "d2", none, none, none, none, none⟩)]) "a" =
      some (mkStoredImage "a" 0 ⟨"base64", "d1", none, none, none, none, none⟩) := by
  have h := store_commit_contract
    [("a", 0, ⟨"base64", "d1", none, none, none, none, none⟩),
      ("b", 1, ⟨"url", "d2", none, none, none, none, none⟩)]
    (by decide) (by decide)
  exact ⟨h.1 [("a", 0, ⟨"base64", "d1", none, none, none, none, none⟩)]
      ("b", 1, ⟨"url", "d2", none, none, none, none, none⟩) rfl,
    h.2.1 [] ("a", 0, ⟨"base64", "d1", none, none, none, none, none⟩)
      [("b", 1, ⟨"url", "d2", none, none, none, none, none⟩)] rfl⟩

/-! ## The hub: join-time catch-up and (missing) heartbeat handling -/

/-- C7 (confirmed).  A subscriber that connects while the store holds a
current image (and whose socket is still open) is immediately sent exactly
one `image_update` frame carrying that image, as a function of the store
state at the instant of joining — before and independent of any later
commit; a subscriber joining an empty store is sent nothing at join time. -/
theorem join_time_catchup (st : StoreState) (clients : List ConnId) (c : ConnId) :
    (∀ img, getCurrentImage st = some img →
      (onConnection st clients c true).2 = [.imageUpdate img]) ∧
    (getCurrentImage st = none →
      ∀ isOpen, (onConnection st clients c isOpen).2 = []) := by
  constructor
  · intro img h
    simp [onConnection, h]
  · intro h isOpen
    simp [onConnection, h]

/-- Witness for C7: commit one image, then join — the first frame is that
image; join an empty store — no frame. -/
theorem join_time_catchup_witness :
    (onConnection (storeImage emptyStore "a" 0
      ⟨"base64", "d", none, none, none, none, none⟩).2 [] 0 true).2 =
      [.imageUpdate (mkStoredImage "a" 0 ⟨"base64", "d", none, none, none, none, none⟩)] ∧
    (onConnection emptyStore [] 0 true).2 = [] := by
  refine ⟨(join_time_catchup _ [] 0).1 _ ?_,
    (join_time_catchup emptyStore [] 0).2 rfl true⟩
  exact getCurrentImage_commit emptyStore "a" 0 _ (by decide)

/-- C8 (code bug).  The spec requires the hub to answer each subscriber
`ping` with a `pong` and to drop a silently dead subscriber within a
heartbeat-timeout window.  The connection handler registers no `message`
listener at all, so a `ping` frame is never answered, and the `clients` set
only shrinks on `close`/`error` events: a connection that dies without
emitting either event survives every fan-out, forever. -/
theorem heartbeat_never_answered (t : Nat) (trace : List HubEvent)
    (clients : List ConnId) (c : ConnId) (hmem : c ∈ clients)
    (hsilent : ∀ e ∈ trace, e ≠ .close c ∧ e ≠ .error c) :
    wsReplyToMessage (.ping t) = [] ∧
    "message" ∉ registeredConnectionEvents ∧
    c ∈ trace.foldl hubStep clients := by
  refine ⟨rfl, by decide, ?_⟩
  induction trace generalizing clients with
  | nil => exact hmem
  | cons e tr ih =>
    have hsil := hsilent e (by simp)
    have hmem' : c ∈ hubStep clients e := by
      cases e with
      | connect c' =>
        by_cases h : c' ∈ clients <;> simp [hubStep, h, hmem]
      | close c' =>
        have hne : c ≠ c' := fun h => hsil.1 (by simp [h])
        simpa [hubStep, List.mem_erase_of_ne hne] using hmem
      | error c' =>
        have hne : c ≠ c' := fun h => hsil.2 (by simp [h])
        simpa [hubStep, List.mem_erase_of_ne hne] using hmem
    simp only [List.foldl_cons]
    exact ih (hubStep clients e) hmem' fun e' he' => hsilent e' (by simp [he'])

/-- Witness for C8's evaluation: connection `0` is silently dead while
`1` connects and later closes; `0` is still in the registry at the end. -/
theorem heartbeat_never_answered_witness :
    wsReplyToMessage (.ping 1000) = [] ∧
    "message" ∉ registeredConnectionEvents ∧
    0 ∈ [HubEvent.connect 1, HubEvent.close 1].foldl hubStep [0] :=
  heartbeat_never_answered 1000 [HubEvent.connect 1, HubEvent.close 1] [0] 0
    (by decide) (by decide)

/-! ## The metadata extractor -/

/-- C9 (confirmed).  The extractor is total by construction (the oracle's
`none` models the `sharp` promise rejecting on malformed input, which the
`catch` block absorbs); on failure it yields `format = "unknown"`, absent
dimensions, and `size` equal to the input length — and ingestion of such a
buffer still succeeds end-to-end through the JSON route. -/
theorem extractor_degrades_gracefully (env : Env) (d : String)
    (h : env.sharp (jsB64Decode (stripDataUriPrefix d)) = none) :
    getImageMetadata env.sharp (jsB64Decode (stripDataUriPrefix d)) =
      ⟨none, none, some "unknown", (jsB64Decode (stripDataUriPrefix d)).length⟩ ∧
    ∀ st id now fn fmt,
      isOk (handleUpload env st id now (.base64 d fn fmt)).1 = true := by
  refine ⟨by simp [getImageMetadata, h], fun st id now fn fmt => rfl⟩

/-- Witness for C9: a malformed buffer (the extractor oracle fails on
everything) is still ingested. -/
theorem extractor_degrades_gracefully_witness :
    getImageMetadata (fun _ => none) (jsB64Decode (stripDataUriPrefix "QUJD")) =
      ⟨none, none, some "unknown", 3⟩ ∧
    isOk (handleUpload ⟨fun _ => none, fun _ => none, fun _ => [], fun _ => none⟩
      emptyStore "id0" 0 (.base64 "QUJD" none none)).1 = true := by
  have h := extractor_degrades_gracefully
    ⟨fun _ => none, fun _ => none, fun _ => [], fun _ => none⟩ "QUJD" rfl
  exact ⟨h.1.trans (by decide), h.2 emptyStore "id0" 0 none none⟩

/-! ## The URL safety validator -/

theorem validateImageUrl_valid_implies (u : UrlParts) (dns : String → List String)
    (h : (validateImageUrl (some u) dns).valid = true) :
    dns (lowerHost u) ≠ [] ∧
    ∀ a ∈ dns (lowerHost u), isPrivateIP a = false := by
  simp only [validateImageUrl] at h
  split_ifs at h with h1 h2 h3 h4 h5
  all_goals try simp at h
  refine ⟨fun hnil => h4 (by simp [hnil]), fun a ha => ?_⟩
  by_contra hpriv
  exact h5 (List.any_eq_true.mpr ⟨a, ha, by simpa using hpriv⟩)

/-- C2 (confirmed).  The validator inspects every address the hostname
resolves to and rejects the URL if any of them is private, rejects when
resolution fails or yields nothing (`.catch` maps a resolver error to the
empty list), every rejection carries a non-empty human-readable reason, and
a rejected URL makes the route answer 400 with that reason without the
fetch oracle ever being consulted — the handler's result is identical under
any replacement fetch oracle, and the store is left untouched with nothing
broadcast. -/
theorem url_validation_blocks_before_fetch (u : UrlParts) (dns : String → List String) :
    (∀ a ∈ dns (lowerHost u), isPrivateIP a = true →
      (validateImageUrl (some u) dns).valid = false) ∧
    (dns (lowerHost u) = [] →
      (validateImageUrl (some u) dns).valid = false) ∧
    (∀ parse, (validateImageUrl parse dns).valid = false →
      ∃ m, (validateImageUrl parse dns).error = some m ∧ m ≠ "") ∧
    (∀ env st id now uStr fetch',
      env.dns = dns →
      (validateImageUrl (env.parseUrl uStr) env.dns).valid = false →
      handleUpload env st id now (.url uStr) =
        (.err 400 (jsOrS (validateImageUrl (env.parseUrl uStr) env.dns).error
          "Invalid URL"), st, []) ∧
      handleUpload { env with fetch := fetch' } st id now (.url uStr) =
        handleUpload env st id now (.url uStr)) := by
  have hfalse : ∀ b : Bool, b ≠ true → b = false := by decide
  refine ⟨?_, ?_, ?_, ?_⟩
  · intro a ha hpriv
    refine hfalse _ fun hv => ?_
    have := (validateImageUrl_valid_implies u dns hv).2 a ha
    rw [hpriv] at this
    exact absurd this (by decide)
  · intro hnil
    refine hfalse _ fun hv => (validateImageUrl_valid_implies u dns hv).1 hnil
  · intro parse hv
    rcases parse with _ | u₀
    · exact ⟨_, rfl, by decide⟩
    · simp only [validateImageUrl] at hv ⊢
      split_ifs at hv ⊢ <;> exact ⟨_, rfl, by decide⟩
  · intro env st id now uStr fetch' hdns hv
    constructor
    · simp [handleUpload, hv]
    · simp [handleUpload, hv]

/-- Witness for C2: a hostname resolving to a mix of a public and a private
address is rejected with a reason, and the route answers 400 without
fetching. -/
theorem url_validation_blocks_before_fetch_witness :
    (validateImageUrl (some ⟨"http:", "mixed.example"⟩)
      (fun _ => ["8.8.8.8", "10.0.0.1"])).valid = false ∧
    (validateImageUrl (some ⟨"http:", "mixed.example"⟩)
      (fun _ => ["8.8.8.8", "10.0.0.1"])).error =
        some "URL resolves to a private IP address" ∧
    handleUpload ⟨fun _ => none, fun _ => some ⟨"http:", "mixed.example"⟩,
        fun _ => ["8.8.8.8", "10.0.0.1"], fun _ => none⟩ emptyStore "id0" 0
      (.url "http://mixed.example/a.png") =
      (.err 400 "URL resolves to a private IP address", emptyStore, []) := by
  have h := url_validation_blocks_before_fetch ⟨"http:", "mixed.example"⟩
    (fun _ => ["8.8.8.8", "10.0.0.1"])
  have hv := h.1 "10.0.0.1" (by decide) (by decide)
  refine ⟨hv, by decide, ?_⟩
  have h4 := (h.2.2.2 ⟨fun _ => none, fun _ => some ⟨"http:", "mixed.example"⟩,
    fun _ => ["8.8.8.8", "10.0.0.1"], fun _ => none⟩ emptyStore "id0" 0
    "http://mixed.example/a.png" (fun _ => none) rfl (by decide)).1
  exact h4.trans (by decide)

/-! ## base64: the encode/decode round-trip -/

theorem b64val?_b64char : ∀ v, v < 64 → b64val? (b64char v) = some v := by decide

theorem b64char_ne_pad : ∀ v, v < 64 → b64char v ≠ '=' := by decide

theorem lookupIdx_lt (l : List Char) (c : Char) :
    ∀ i v, lookupIdx l c i = some v → v < i + l.length := by
  induction l with
  | nil => intro i v h; simp [lookupIdx] at h
  | cons x xs ih =>
    intro i v h
    simp only [lookupIdx] at h
    split_ifs at h with hx
    · cases h
      simp
    · have := ih (i + 1) v h
      simp only [List.length_cons]
      omega

theorem b64val?_lt (c : Char) (v : Nat) (h : b64val? c = some v) : v < 64 := by
  have := lookupIdx_lt b64Alphabet c 0 v h
  simpa [b64Alphabet] using this

theorem decodeVals_lt_aux :
    ∀ n vs, List.length vs ≤ n → (∀ x ∈ vs, x < 64) → ∀ y ∈ decodeVals vs, y < 256 := by
  intro n
  induction n with
  | zero =>
    intro vs hl _ y hy
    rw [List.length_eq_zero.mp (Nat.le_zero.mp hl)] at hy
    simp [decodeVals] at hy
  | succ n ih =>
    intro vs hl h y hy
    rcases vs with _ | ⟨a, _ | ⟨b, _ | ⟨c, _ | ⟨d, rest⟩⟩⟩⟩
    · simp [decodeVals] at hy
    · simp [decodeVals] at hy
    · have ha := h a (by simp)
      have hb := h b (by simp)
      simp only [decodeVals, List.mem_singleton] at hy
      omega
    · have ha := h a (by simp)
      have hb := h b (by simp)
      have hc := h c (by simp)
      simp only [decodeVals, List.mem_cons, List.not_mem_nil, or_false] at hy
      rcases hy with rfl | rfl <;> omega
    · have ha := h a (by simp)
      have hb := h b (by simp)
      have hc := h c (by simp)
      have hd := h d (by simp)
      simp only [decodeVals, List.mem_cons] at hy
      rcases hy with rfl | rfl | rfl | hy
      · omega
      · omega
      · omega
      · refine ih rest ?_ (fun x hx => h x (by simp [hx])) y hy
        simp only [List.length_cons] at hl
        omega

theorem decodeVals_lt (vs : List Nat) (h : ∀ x ∈ vs, x < 64) :
    ∀ y ∈ decodeVals vs, y < 256 :=
  decodeVals_lt_aux vs.length vs le_rfl h

theorem jsB64Decode_lt (s : String) : ∀ y ∈ jsB64Decode s, y < 256 := by
  refine decodeVals_lt _ fun x hx => ?_
  obtain ⟨c, _, hc⟩ := List.mem_filterMap.mp hx
  exact b64val?_lt c x hc

theorem decodeB64_encodeB64_aux :
    ∀ n l, List.length l ≤ n → (∀ x ∈ l, x < 256) →
      decodeB64 (encodeB64 l) = some l := by
  intro n
  induction n with
  | zero =>
    intro l hl _
    rw [List.length_eq_zero.mp (Nat.le_zero.mp hl)]
    rfl
  | succ n ih =>
    intro l hl hb
    rcases l with _ | ⟨a, _ | ⟨b, _ | ⟨c, rest⟩⟩⟩
    · rfl
    · have ha := hb a (by simp)
      have e1 := b64val?_b64char (a / 4) (by omega)
      have e2 := b64val?_b64char (a % 4 * 16) (by omega)
      simp [encodeB64, decodeB64, e1, e2]
      omega
    · have ha := hb a (by simp)
      have hb' := hb b (by simp)
      have e1 := b64val?_b64char (a / 4) (by omega)
      have e2 := b64val?_b64char (a % 4 * 16 + b / 16) (by omega)
      have e3 := b64val?_b64char (b % 16 * 4) (by omega)
      have n3 := b64char_ne_pad (b % 16 * 4) (by omega)
      simp [encodeB64, decodeB64, e1, e2, e3, if_neg n3]
      omega
    · have ha := hb a (by simp)
      have hb' := hb b (by simp)
      have hc := hb c (by simp)
      have e1 := b64val?_b64char (a / 4) (by omega)
      have e2 := b64val?_b64char (a % 4 * 16 + b / 16) (by omega)
      have e3 := b64val?_b64char (b % 16 * 4 + c / 64) (by omega)
      have e4 := b64val?_b64char (c % 64) (by omega)
      have n3 := b64char_ne_pad (b % 16 * 4 + c / 64) (by omega)
      have n4 := b64char_ne_pad (c % 64) (by omega)
      have hrec : decodeB64 (encodeB64 rest) = some rest := by
        refine ih rest ?_ fun x hx => hb x (by simp [hx])
        simp only [List.length_cons] at hl
        omega
      simp [encodeB64, decodeB64, e1, e2, e3, e4, if_neg n3, if_neg n4, hrec]
      omega

/-- The strict decoder inverts the encoder on every byte list. -/
theorem decodeB64_encodeB64 (l : List Nat) (h : ∀ x ∈ l, x < 256) :
    decodeB64 (encodeB64 l) = some l :=
  decodeB64_encodeB64_aux l.length l le_rfl h

theorem finishIngest_ok (sharp : List Nat → Option SharpMeta) (st : StoreState)
    (id : String) (now : Nat) (typ : String) (buf : List Nat) (fname : String)
    (fb : Option String) (img : Image) (st' : StoreState) (bc : List Image)
    (h : finishIngest sharp st id now typ buf fname fb = (.ok img, st', bc)) :
    img.data = "data:image/" ++ jsUndefToStr (getImageMetadata sharp buf).format ++
      ";base64," ++ String.mk (encodeB64 buf) := by
  have h1 := congrArg (fun p => p.1) h
  simp only [finishIngest, storeImage] at h1
  cases h1
  rfl

/-- C10 (confirmed).  Every successful ingestion — JSON base64, JSON URL, or
multipart — stores as payload the string
`data:image/<extracted format>;base64,<base64 of the ingested bytes>`, and
base64-decoding that suffix recovers exactly the ingested bytes.  The byte
hypotheses say the oracle-supplied buffers are genuine bytes (`< 256`); the
base64 route's buffer comes from the decoder, which guarantees that. -/
theorem stored_payload_roundtrip :
    (∀ env st id now req img st' bc,
      (∀ u r, env.fetch u = some r → ∀ x ∈ r.body, x < 256) →
      handleUpload env st id now req = (.ok img, st', bc) →
      ∃ buf, (∀ x ∈ buf, x < 256) ∧
        img.data = "data:image/" ++
          jsUndefToStr (getImageMetadata env.sharp buf).format ++ ";base64," ++
          String.mk (encodeB64 buf) ∧
        decodeB64 (encodeB64 buf) = some buf ∧
        (∀ d fn fmt, req = .base64 d fn fmt →
          buf = jsB64Decode (stripDataUriPrefix d)) ∧
        (∀ u, req = .url u → ∃ r, env.fetch u = some r ∧ buf = r.body)) ∧
    (∀ env st id now f img st' bc,
      (∀ x ∈ f.buffer, x < 256) →
      handleMultipart env st id now (some f) = (.ok img, st', bc) →
      img.data = "data:image/" ++
        jsUndefToStr (getImageMetadata env.sharp f.buffer).format ++ ";base64," ++
        String.mk (encodeB64 f.buffer) ∧
      decodeB64 (encodeB64 f.buffer) = some f.buffer) := by
  constructor
  · intro env st id now req img st' bc hfetch h
    cases req with
    | base64 d fn fmt =>
      refine ⟨jsB64Decode (stripDataUriPrefix d), jsB64Decode_lt _, ?_,
        decodeB64_encodeB64 _ (jsB64Decode_lt _), ?_, ?_⟩
      · exact finishIngest_ok _ _ _ _ _ _ _ _ _ _ _ h
      · intro d' fn' fmt' hreq
        cases hreq
        rfl
      · intro u hreq
        cases hreq
    | url u =>
      simp only [handleUpload] at h
      split at h
      · exact absurd h (by simp)
      · split at h
        · exact absurd h (by simp)
        · rename_i resp hf
          split at h
          · exact absurd h (by simp)
          · split at h
            · exact absurd h (by simp)
            · rename_i ct hct
              split at h
              · exact absurd h (by simp)
              · split at h
                · exact absurd h (by simp)
                · split at h
                  · exact absurd h (by simp)
                  · refine ⟨resp.body, hfetch u resp hf, ?_,
                      decodeB64_encodeB64 _ (hfetch u resp hf), ?_, ?_⟩
                    · exact finishIngest_ok _ _ _ _ _ _ _ _ _ _ _ h
                    · intro d' fn' fmt' hreq
                      cases hreq
                    · intro u' hreq
                      cases hreq
                      exact ⟨resp, hf, rfl⟩
  · intro env st id now f img st' bc hbytes h
    exact ⟨finishIngest_ok _ _ _ _ _ _ _ _ _ _ _ h,
      decodeB64_encodeB64 _ hbytes⟩

/-- Witness for C10: a concrete base64 ingestion; the ingested bytes are
recovered by the decoder. -/
theorem stored_payload_roundtrip_witness :
    ∃ buf, (∀ x ∈ buf, x < 256) ∧ decodeB64 (encodeB64 buf) = some buf ∧
      buf = jsB64Decode (stripDataUriPrefix "QUJD") := by
  obtain ⟨buf, hb, _, hdec, hbase, _⟩ := stored_payload_roundtrip.1
    ⟨fun _ => none, fun _ => none, fun _ => [], fun _ => none⟩ emptyStore "id0" 0
    (.base64 "QUJD" none none) _ _ _ (fun u r hr => Option.noConfusion hr) rfl
  exact ⟨buf, hb, hdec, hbase "QUJD" none none rfl⟩

/-! ## Media-type gates -/

theorem jsStartsWith_iff (ps : List Char) :
    ∀ cs, jsStartsWith cs ps = true ↔ ∃ t, cs = ps ++ t := by
  induction ps with
  | nil =>
    intro cs
    simp [jsStartsWith]
  | cons p ps ih =>
    intro cs
    cases cs with
    | nil => simp [jsStartsWith]
    | cons c cs =>
      simp only [jsStartsWith, Bool.and_eq_true, beq_iff_eq, ih, List.cons_append,
        List.cons.injEq]
      constructor
      · rintro ⟨rfl, t, rfl⟩
        exact ⟨t, rfl, rfl⟩
      · rintro ⟨t, rfl, rfl⟩
        exact ⟨rfl, t, rfl⟩

/-- C4 (counterexample).  The claim says a URL ingestion whose response
content-type is outside the `{jpeg, png, gif, webp}` whitelist is rejected
before the bytes are stored; but the URL branch only tests
`contentType.startsWith('image/')`, so a `image/bmp` response is ingested,
stored, and made current. -/
theorem url_content_type_counterexample :
    fileFilterAccepts "image/bmp" = false ∧
    (handleUpload ⟨fun _ => none, fun _ => some ⟨"http:", "example.com"⟩,
        fun _ => ["93.184.216.34"], fun _ => some ⟨true, some "image/bmp", none, [66, 77]⟩⟩
      emptyStore "id0" 5 (.url "http://example.com/a.bmp")).1 =
      .ok (mkStoredImage "id0" 5 ⟨"url", "data:image/unknown;base64,Qk0=",
        some "a.bmp", some "unknown", none, none, some 2⟩) ∧
    getImage (handleUpload ⟨fun _ => none, fun _ => some ⟨"http:", "example.com"⟩,
        fun _ => ["93.184.216.34"], fun _ => some ⟨true, some "image/bmp", none, [66, 77]⟩⟩
      emptyStore "id0" 5 (.url "http://example.com/a.bmp")).2.1 "id0" ≠ none := by
  refine ⟨by decide, by decide, by decide⟩

/-- C4 (amended, corrected).  The multipart path does enforce the fixed
whitelist, by declared content-type, before the handler runs; the URL path
enforces only that the response content-type begins with `image/` — any
`image/*` subtype outside the whitelist is accepted and stored. -/
theorem media_type_gates_amended :
    (∀ m, fileFilterAccepts m = true ↔
      m = "image/jpeg" ∨ m = "image/png" ∨ m = "image/gif" ∨ m = "image/webp") ∧
    (∀ env st id now f, fileFilterAccepts f.mimetype = false →
      multipartEndpoint env st id now f =
        (.multerError "Invalid file type. Only JPEG, PNG, GIF, and WebP are allowed.",
          st, [])) ∧
    (∀ ct : String, jsStartsWith ct.data "image/".data = true ↔
      ∃ rest, ct = "image/" ++ rest) ∧
    (∀ env st id now u resp,
      (validateImageUrl (env.parseUrl u) env.dns).valid = true →
      env.fetch u = some resp → resp.ok = true →
      (resp.contentType = none ∨
        ∃ ct, resp.contentType = some ct ∧ jsStartsWith ct.data "image/".data = false) →
      handleUpload env st id now (.url u) =
        (.err 400 "URL does not point to an image (invalid content-type)", st, [])) := by
  refine ⟨?_, ?_, ?_, ?_⟩
  · intro m
    simp [fileFilterAccepts, allowedMimes]
  · intro env st id now f h
    simp [multipartEndpoint, multerCheck, h]
  · intro ct
    rw [jsStartsWith_iff]
    constructor
    · rintro ⟨t, ht⟩
      refine ⟨String.mk t, ?_⟩
      apply String.ext
      simpa using ht
    · rintro ⟨rest, rfl⟩
      exact ⟨rest.data, by simp⟩
  · intro env st id now u resp hval hf hok hct
    rcases hct with hnone | ⟨ct, hsome, hsw⟩
    · simp [handleUpload, hval, hf, hok, hnone]
    · simp [handleUpload, hval, hf, hok, hsome, hsw]

/-- Witness for the amended C4: a `text/plain` multipart upload is turned
away by the filter, and a `text/html` URL response is rejected with the
content-type error. -/
theorem media_type_gates_amended_witness :
    multipartEndpoint ⟨fun _ => none, fun _ => none, fun _ => [], fun _ => none⟩
      emptyStore "id0" 0 ⟨"a.txt", "text/plain", [1]⟩ =
      (.multerError "Invalid file type. Only JPEG, PNG, GIF, and WebP are allowed.",
        emptyStore, []) ∧
    handleUpload ⟨fun _ => none, fun _ => some ⟨"http:", "example.com"⟩,
        fun _ => ["93.184.216.34"], fun _ => some ⟨true, some "text/html", none, [1]⟩⟩
      emptyStore "id0" 0 (.url "http://example.com/x") =
      (.err 400 "URL does not point to an image (invalid content-type)",
        emptyStore, []) := by
  refine ⟨media_type_gates_amended.2.1 _ emptyStore "id0" 0 _ (by decide),
    media_type_gates_amended.2.2.2 _ emptyStore "id0" 0 _ _ (by decide) rfl rfl
      (Or.inr ⟨_, rfl, by decide⟩)⟩

/-! ## The declared-format hint -/

/-- C5 (counterexample).  The claim says the stored format equals the
declared hint exactly when extraction cannot determine the format.  Here
extraction fails outright (the `sharp` oracle rejects, i.e. the `catch`
block runs), the request declares the hint `png`, and the stored format is
the literal `"unknown"` — the hint is ignored, because the `catch` block's
`'unknown'` is itself truthy and wins the `metadata.format || format`
fallback. -/
theorem format_hint_counterexample :
    (handleUpload ⟨fun _ => none, fun _ => none, fun _ => [], fun _ => none⟩
      emptyStore "id0" 0 (.base64 "QUJD" none (some "png"))).1 =
      .ok (mkStoredImage "id0" 0 ⟨"base64", "data:image/unknown;base64,QUJD",
        some "base64-image", some "unknown", none, none, some 3⟩) ∧
    (some "unknown" : Option String) ≠ some "png" := by
  refine ⟨by decide, by decide⟩

/-- C5 (amended, corrected).  On the JSON base64 route, the stored format is
`"unknown"` whenever extraction fails (regardless of the hint); the
extracted format wins whenever extraction succeeds with a truthy format;
and the declared hint (defaulted to `"unknown"`) is used only when
extraction succeeds while leaving `format` undefined/empty. -/
theorem format_hint_amended (env : Env) (st : StoreState) (id : String)
    (now : Nat) (d : String) (fn fmt : Option String) (buf : List Nat)
    (hbuf : buf = jsB64Decode (stripDataUriPrefix d)) :
    (env.sharp buf = none → ∃ img st' bc,
      handleUpload env st id now (.base64 d fn fmt) = (.ok img, st', bc) ∧
      img.format = some "unknown") ∧
    (∀ m, env.sharp buf = some m → jsTruthyS m.format = true → ∃ img st' bc,
      handleUpload env st id now (.base64 d fn fmt) = (.ok img, st', bc) ∧
      img.format = m.format) ∧
    (∀ m, env.sharp buf = some m → jsTruthyS m.format = false → ∃ img st' bc,
      handleUpload env st id now (.base64 d fn fmt) = (.ok img, st', bc) ∧
      img.format = some (jsOrS fmt "unknown")) := by
  subst hbuf
  refine ⟨fun h => ⟨_, _, _, rfl, ?_⟩, fun m h hm => ⟨_, _, _, rfl, ?_⟩,
    fun m h hm => ⟨_, _, _, rfl, ?_⟩⟩
  · simp [handleUpload, finishIngest, storeImage, mkStoredImage,
      getImageMetadata, h, jsOrOptS, jsTruthyS]
  · simp [handleUpload, finishIngest, storeImage, mkStoredImage,
      getImageMetadata, h, jsOrOptS, hm]
  · simp [handleUpload, finishIngest, storeImage, mkStoredImage,
      getImageMetadata, h, jsOrOptS, hm]

/-- Witness for the amended C5: extraction fails, hint `png` declared,
stored format is `"unknown"`. -/
theorem format_hint_amended_witness :
    ∃ img st' bc,
      handleUpload ⟨fun _ => none, fun _ => none, fun _ => [], fun _ => none⟩
        emptyStore "id0" 0 (.base64 "QUJD" none (some "png")) =
        (.ok img, st', bc) ∧ img.format = some "unknown" :=
  (format_hint_amended ⟨fun _ => none, fun _ => none, fun _ => [], fun _ => none⟩
    emptyStore "id0" 0 "QUJD" none (some "png") _ rfl).1 rfl

/-! ## The size ceiling -/

theorem strip_replicate (n : Nat) :
    stripDataUriPrefix (String.mk (List.replicate n 'A')) =
      String.mk (List.replicate n 'A') := by
  have hne : List.replicate (min 11 n) 'A' ≠ "data:image/".data := by
    cases hmin : min 11 n with
    | zero => simp
    | succ k => simp [List.replicate_succ]
  simp [stripDataUriPrefix, List.take_replicate, hne]

theorem filterMap_b64val_replicate (n : Nat) :
    (List.replicate n 'A').filterMap b64val? = List.replicate n 0 := by
  have hA : b64val? 'A' = some 0 := by decide
  induction n with
  | zero => rfl
  | succ k ih => simp [List.replicate_succ, List.filterMap_cons, hA, ih]

theorem decodeVals_replicate_zero_length (k : Nat) :
    (decodeVals (List.replicate (4 * k) 0)).length = 3 * k := by
  induction k with
  | zero => rfl
  | succ k ih =>
    have hrep : List.replicate (4 * (k + 1)) (0 : Nat) =
        0 :: 0 :: 0 :: 0 :: List.replicate (4 * k) 0 := by
      rw [show 4 * (k + 1) = (((4 * k + 1) + 1) + 1) + 1 by ring]
      simp [List.replicate_succ]
    rw [hrep]
    simp only [decodeVals, List.length_cons, ih]
    omega

theorem base64_route_isOk (env : Env) (st : StoreState) (id : String) (now : Nat)
    (d : String) (fn fmt : Option String) :
    isOk (handleUpload env st id now (.base64 d fn fmt)).1 = true := rfl

/-- C1 (counterexample).  The claim says an inline (base64) payload one
byte over the 10 MiB ceiling fails with `PayloadTooLarge`; but the base64
branch of the JSON route performs no size check whatsoever: a payload of
10 MiB + 2 bytes (here `'A'` repeated 13981016 times, which decodes to
10485762 zero bytes) is ingested successfully. -/
theorem inline_no_size_limit_counterexample :
    (jsB64Decode (stripDataUriPrefix
      (String.mk (List.replicate 13981016 'A')))).length = 10485762 ∧
    10485762 > sizeLimit ∧
    isOk (handleUpload ⟨fun _ => none, fun _ => none, fun _ => [], fun _ => none⟩
      emptyStore "id0" 0
      (.base64 (String.mk (List.replicate 13981016 'A')) none none)).1 = true := by
  refine ⟨?_, by norm_num [sizeLimit], base64_route_isOk _ _ _ _ _ _ _⟩
  rw [strip_replicate]
  show (decodeVals ((List.replicate 13981016 'A').filterMap b64val?)).length = _
  rw [filterMap_b64val_replicate, show (13981016 : Nat) = 4 * 3495254 by norm_num,
    decodeVals_replicate_zero_length]

/-- C1 (amended, corrected).  The 10 MiB ceiling is enforced on the URL path
(both on the declared `content-length` and, independently, on the actual
bytes received) and on the multipart path (multer's `fileSize` limit aborts
rather than truncates), with payloads at or below the ceiling passing; the
inline base64 path enforces no ceiling at all — every inline payload, of
any size, is accepted. -/
theorem size_ceiling_amended :
    (∀ env st id now u resp,
      (validateImageUrl (env.parseUrl u) env.dns).valid = true →
      env.fetch u = some resp → resp.ok = true →
      (∃ ct, resp.contentType = some ct ∧
        jsStartsWith ct.data "image/".data = true) →
      (∃ n, resp.contentLength = some n ∧ n > sizeLimit) →
      handleUpload env st id now (.url u) =
        (.err 400 "Image too large (max 10MB)", st, [])) ∧
    (∀ env st id now u resp,
      (validateImageUrl (env.parseUrl u) env.dns).valid = true →
      env.fetch u = some resp → resp.ok = true →
      (∃ ct, resp.contentType = some ct ∧
        jsStartsWith ct.data "image/".data = true) →
      (resp.contentLength = none ∨
        ∃ n, resp.contentLength = some n ∧ n ≤ sizeLimit) →
      resp.body.length > sizeLimit →
      handleUpload env st id now (.url u) =
        (.err 400 "Image too large (max 10MB)", st, [])) ∧
    (∀ env st id now u resp,
      (validateImageUrl (env.parseUrl u) env.dns).valid = true →
      env.fetch u = some resp → resp.ok = true →
      (∃ ct, resp.contentType = some ct ∧
        jsStartsWith ct.data "image/".data = true) →
      (resp.contentLength = none ∨
        ∃ n, resp.contentLength = some n ∧ n ≤ sizeLimit) →
      resp.body.length ≤ sizeLimit →
      isOk (handleUpload env st id now (.url u)).1 = true) ∧
    (∀ m size, fileFilterAccepts m = true →
      (multerCheck m size = .rejectedSize ↔ size > sizeLimit)) ∧
    (∀ env st id now d fn fmt,
      isOk (handleUpload env st id now (.base64 d fn fmt)).1 = true) := by
  refine ⟨?_, ?_, ?_, ?_, fun env st id now d fn fmt => rfl⟩
  · rintro env st id now u resp hval hf hok ⟨ct, hct, hsw⟩ ⟨n, hcl, hn⟩
    simp [handleUpload, hval, hf, hok, hct, hsw, hcl, hn]
  · rintro env st id now u resp hval hf hok ⟨ct, hct, hsw⟩ hcl hsz
    rcases hcl with hcl | ⟨n, hcl, hn⟩
    · simp [handleUpload, hval, hf, hok, hct, hsw, hcl, hsz]
    · have hn' : ¬n > sizeLimit := by omega
      simp [handleUpload, hval, hf, hok, hct, hsw, hcl, hn', hsz]
  · rintro env st id now u resp hval hf hok ⟨ct, hct, hsw⟩ hcl hsz
    have hsz' : ¬resp.body.length > sizeLimit := by omega
    rcases hcl with hcl | ⟨n, hcl, hn⟩
    · simp [handleUpload, hval, hf, hok, hct, hsw, hcl, hsz', finishIngest, isOk]
    · have hn' : ¬n > sizeLimit := by omega
      simp [handleUpload, hval, hf, hok, hct, hsw, hcl, hn', hsz', finishIngest, isOk]
  · intro m size hm
    by_cases hs : size > sizeLimit <;> simp [multerCheck, hm, hs]

/-- Witness for the amended C1: a fetched body of 10 MiB + 1 bytes is
rejected as too large, and the multer gate turns an oversized whitelisted
upload into `LIMIT_FILE_SIZE`-style rejection. -/
theorem size_ceiling_amended_witness :
    handleUpload ⟨fun _ => none, fun _ => some ⟨"http:", "example.com"⟩,
        fun _ => ["93.184.216.34"],
        fun _ => some ⟨true, some "image/png", none, List.replicate 10485761 0⟩⟩
      emptyStore "id0" 0 (.url "http://example.com/big.png") =
      (.err 400 "Image too large (max 10MB)", emptyStore, []) ∧
    multerCheck "image/png" 10485761 = .rejectedSize := by
  constructor
  · refine size_ceiling_amended.2.1 _ emptyStore "id0" 0 _ _ (by decide) rfl rfl
      ⟨"image/png", rfl, by decide⟩ (Or.inl rfl) ?_
    show (List.replicate 10485761 (0 : Nat)).length > sizeLimit
    rw [List.length_replicate]
    norm_num [sizeLimit]
  · exact (size_ceiling_amended.2.2.2.1 "image/png" 10485761 (by decide)).mpr
      (by norm_num [sizeLimit])

/-! ## The private-address classifier: decimal numerals -/

theorem digitChar_facts : ∀ k, k < 10 →
    (digitChar k).isDigit = true ∧ (digitChar k).toNat - 48 = k ∧
    digitChar k ∈ ['0', '1', '2', '3', '4', '5', '6', '7', '8', '9'] := by decide

theorem decCharsAux_ne_nil : ∀ fuel n, n < fuel → decCharsAux fuel n ≠ [] := by
  intro fuel
  induction fuel with
  | zero => intro n h; omega
  | succ fuel _ =>
    intro n _
    by_cases h10 : n < 10 <;> simp [decCharsAux, h10]

theorem decCharsAux_mem : ∀ fuel n, n < fuel → ∀ x ∈ decCharsAux fuel n,
    x ∈ ['0', '1', '2', '3', '4', '5', '6', '7', '8', '9'] := by
  intro fuel
  induction fuel with
  | zero => intro n h; omega
  | succ fuel ih =>
    intro n hn x hx
    by_cases h10 : n < 10
    · simp only [decCharsAux, if_pos h10, List.mem_singleton] at hx
      subst hx
      exact (digitChar_facts n h10).2.2
    · simp only [decCharsAux, if_neg h10, List.mem_append, List.mem_singleton] at hx
      rcases hx with hx | rfl
      · exact ih (n / 10) (by omega) x hx
      · exact (digitChar_facts (n % 10) (by omega)).2.2

theorem decChars_ne_nil (n : Nat) : decChars n ≠ [] :=
  decCharsAux_ne_nil (n + 1) n (by omega)

theorem decChars_mem (n : Nat) : ∀ x ∈ decChars n,
    x ∈ ['0', '1', '2', '3', '4', '5', '6', '7', '8', '9'] :=
  decCharsAux_mem (n + 1) n (by omega)

theorem decChars_digits (n : Nat) : (decChars n).all Char.isDigit = true := by
  rw [List.all_eq_true]
  intro x hx
  have := decChars_mem n x hx
  fin_cases this <;> decide

theorem dot_not_mem_decChars (n : Nat) : ('.' : Char) ∉ decChars n := by
  intro hmem
  have := decChars_mem n _ hmem
  simp at this

theorem decCharsAux_foldl : ∀ fuel n acc, n < fuel →
    (decCharsAux fuel n).foldl (fun a c => a * 10 + (c.toNat - 48)) acc =
      acc * 10 ^ (decCharsAux fuel n).length + n := by
  intro fuel
  induction fuel with
  | zero => intro n acc h; omega
  | succ fuel ih =>
    intro n acc hn
    by_cases h10 : n < 10
    · simp [decCharsAux, h10, (digitChar_facts n h10).2.1]
    · have hdiv : n / 10 < fuel := by omega
      have hmod : (digitChar (n % 10)).toNat - 48 = n % 10 :=
        (digitChar_facts (n % 10) (by omega)).2.1
      rw [show decCharsAux (fuel + 1) n =
          decCharsAux fuel (n / 10) ++ [digitChar (n % 10)] by
        simp [decCharsAux, h10]]
      rw [List.foldl_append, List.length_append]
      simp only [List.foldl_cons, List.foldl_nil, List.length_cons,
        List.length_nil, Nat.zero_add]
      rw [ih (n / 10) acc hdiv, hmod]
      have hdm : n / 10 * 10 + n % 10 = n := by omega
      calc (acc * 10 ^ (decCharsAux fuel (n / 10)).length + n / 10) * 10 + n % 10
          = acc * (10 ^ (decCharsAux fuel (n / 10)).length * 10) +
            (n / 10 * 10 + n % 10) := by ring
        _ = acc * 10 ^ ((decCharsAux fuel (n / 10)).length + 1) + n := by
            rw [hdm, pow_succ]

/-- The canonical numeral reads back to its value (the `parseInt` round
trip). -/
theorem toNatL?_decChars (n : Nat) : toNatL? (decChars n) = some n := by
  rw [toNatL?, if_pos ⟨decChars_ne_nil n, decChars_digits n⟩]
  rw [decChars, decCharsAux_foldl (n + 1) n 0 (by omega)]
  simp

/-- The per-octet test passes exactly on the canonical numerals of values
up to 255. -/
theorem ipv4PartOk_iff (p : List Char) :
    ipv4PartOk p = true ↔ ∃ n, n ≤ 255 ∧ p = decChars n := by
  rw [ipv4PartOk]
  constructor
  · cases htn : toNatL? p with
    | none => simp
    | some n =>
      intro h
      simp only [Bool.and_eq_true, decide_eq_true_eq, beq_iff_eq] at h
      exact ⟨n, h.1, h.2⟩
  · rintro ⟨n, hn, rfl⟩
    rw [toNatL?_decChars]
    simp [hn]

theorem partNum_decChars (n : Nat) : partNum (decChars n) = n := by
  simp [partNum, toNatL?_decChars]

/-! ## The private-address classifier: the split -/

theorem jsSplit_nil (sep : Char) : jsSplit sep [] = [[]] := rfl

theorem jsSplit_cons (sep c : Char) (cs : List Char) :
    jsSplit sep (c :: cs) =
      if c = sep then [] :: jsSplit sep cs
      else
        match jsSplit sep cs with
        | h :: t => (c :: h) :: t
        | [] => [[c]] := rfl

theorem jsSplit_exists_cons (sep : Char) (cs : List Char) :
    ∃ h0 t, jsSplit sep cs = h0 :: t := by
  induction cs with
  | nil => exact ⟨[], [], rfl⟩
  | cons c cs ih =>
    obtain ⟨h0, t, ht⟩ := ih
    rw [jsSplit_cons]
    by_cases h : c = sep
    · exact ⟨[], jsSplit sep cs, by rw [if_pos h]⟩
    · exact ⟨c :: h0, t, by rw [if_neg h, ht]⟩

theorem joinSep_jsSplit (sep : Char) : ∀ cs, joinSep sep (jsSplit sep cs) = cs := by
  intro cs
  induction cs with
  | nil => rfl
  | cons c cs ih =>
    obtain ⟨h0, t, ht⟩ := jsSplit_exists_cons sep cs
    rw [jsSplit_cons]
    by_cases h : c = sep
    · rw [if_pos h, ht]
      rw [ht] at ih
      simp only [joinSep, List.nil_append]
      rw [ih, h]
    · rw [if_neg h, ht]
      rw [ht] at ih
      cases t with
      | nil =>
        simp only [joinSep] at ih ⊢
        rw [ih]
      | cons t0 ts =>
        simp only [joinSep, List.cons_append] at ih ⊢
        rw [ih]

theorem jsSplit_no_sep_mem (sep : Char) : ∀ cs p, p ∈ jsSplit sep cs → sep ∉ p := by
  intro cs
  induction cs with
  | nil =>
    intro p hp
    rw [jsSplit_nil] at hp
    simp only [List.mem_singleton] at hp
    subst hp
    simp
  | cons c cs ih =>
    intro p hp
    rw [jsSplit_cons] at hp
    by_cases h : c = sep
    · rw [if_pos h] at hp
      rcases List.mem_cons.mp hp with rfl | hp
      · simp
      · exact ih p hp
    · obtain ⟨h0, t, ht⟩ := jsSplit_exists_cons sep cs
      rw [if_neg h, ht] at hp
      rcases List.mem_cons.mp hp with rfl | hp
      · have hh0 : sep ∉ h0 := ih h0 (by rw [ht]; exact List.mem_cons_self _ _)
        intro hmem
        rcases List.mem_cons.mp hmem with rfl | hmem
        · exact h rfl
        · exact hh0 hmem
      · exact ih p (by rw [ht]; exact List.mem_cons_of_mem _ hp)

theorem jsSplit_of_no_sep (sep : Char) : ∀ p, sep ∉ p → jsSplit sep p = [p] := by
  intro p
  induction p with
  | nil => intro _; rfl
  | cons a p ih =>
    intro hp
    have ha : ¬a = sep := fun hh => hp (by simp [hh])
    rw [jsSplit_cons, if_neg ha, ih (fun hh => hp (List.mem_cons_of_mem _ hh))]

theorem jsSplit_append_sep (sep : Char) :
    ∀ p rest, sep ∉ p → jsSplit sep (p ++ sep :: rest) = p :: jsSplit sep rest := by
  intro p
  induction p with
  | nil =>
    intro rest _
    rw [List.nil_append, jsSplit_cons, if_pos rfl]
  | cons a p ih =>
    intro rest hp
    have ha : ¬a = sep := fun hh => hp (by simp [hh])
    rw [List.cons_append, jsSplit_cons, if_neg ha,
      ih rest (fun hh => hp (List.mem_cons_of_mem _ hh))]

theorem jsSplit_quad (a b c d : Nat) :
    jsSplit '.' (decChars a ++ '.' :: (decChars b ++ '.' :: (decChars c ++
      '.' :: decChars d))) = [decChars a, decChars b, decChars c, decChars d] := by
  rw [jsSplit_append_sep _ _ _ (dot_not_mem_decChars a),
    jsSplit_append_sep _ _ _ (dot_not_mem_decChars b),
    jsSplit_append_sep _ _ _ (dot_not_mem_decChars c),
    jsSplit_of_no_sep _ _ (dot_not_mem_decChars d)]

theorem list_len4 {α : Type} (l : List α) (h : l.length = 4) :
    ∃ a b c d, l = [a, b, c, d] := by
  rcases l with _ | ⟨a, _ | ⟨b, _ | ⟨c, _ | ⟨d, rest⟩⟩⟩⟩
  · simp at h
  · simp at h
  · simp at h
  · simp at h
  · simp only [List.length_cons] at h
    have : rest = [] := List.length_eq_zero.mp (by omega)
    exact ⟨a, b, c, d, by rw [this]⟩

/-- `isIPv4` holds exactly on the strict dotted quads. -/
theorem isIPv4L_iff (cs : List Char) :
    isIPv4L cs = true ↔ ∃ a b c d, a ≤ 255 ∧ b ≤ 255 ∧ c ≤ 255 ∧ d ≤ 255 ∧
      cs = decChars a ++ '.' :: (decChars b ++ '.' :: (decChars c ++
        '.' :: decChars d)) := by
  rw [isIPv4L]
  constructor
  · intro h
    simp only [Bool.and_eq_true, beq_iff_eq, List.all_eq_true] at h
    obtain ⟨hlen, hall⟩ := h
    obtain ⟨p1, p2, p3, p4, hps⟩ := list_len4 _ hlen
    obtain ⟨a, ha, rfl⟩ := (ipv4PartOk_iff p1).mp (hall p1 (by simp [hps]))
    obtain ⟨b, hb, rfl⟩ := (ipv4PartOk_iff p2).mp (hall p2 (by simp [hps]))
    obtain ⟨c, hc, rfl⟩ := (ipv4PartOk_iff p3).mp (hall p3 (by simp [hps]))
    obtain ⟨d, hd, rfl⟩ := (ipv4PartOk_iff p4).mp (hall p4 (by simp [hps]))
    refine ⟨a, b, c, d, ha, hb, hc, hd, ?_⟩
    have := joinSep_jsSplit '.' cs
    rw [hps] at this
    exact this.symm
  · rintro ⟨a, b, c, d, ha, hb, hc, hd, rfl⟩
    rw [jsSplit_quad]
    simp only [List.length_cons, List.length_nil, List.all_cons, List.all_nil,
      Bool.and_eq_true, beq_iff_eq, ipv4PartOk_iff]
    exact ⟨trivial, ⟨a, ha, rfl⟩, ⟨b, hb, rfl⟩, ⟨c, hc, rfl⟩, ⟨d, hd, rfl⟩, trivial⟩

/-- On a strict dotted quad, the source's `parts[0]` / `parts[1]` recover
the first two octet values. -/
theorem octetAt_quad (a b c d : Nat) :
    octetAt (decChars a ++ '.' :: (decChars b ++ '.' :: (decChars c ++
      '.' :: decChars d))) 0 = a ∧
    octetAt (decChars a ++ '.' :: (decChars b ++ '.' :: (decChars c ++
      '.' :: decChars d))) 1 = b := by
  rw [octetAt, octetAt, jsSplit_quad]
  simp [partNum_decChars]

/-- The characters of a strict dotted quad: a digit head, and every
character a digit or a dot. -/
theorem isIPv4L_chars (cs : List Char) (h : isIPv4L cs = true) :
    (∃ c t, cs = c :: t ∧
      c ∈ ['0', '1', '2', '3', '4', '5', '6', '7', '8', '9']) ∧
    ∀ x ∈ cs, x ∈ ['0', '1', '2', '3', '4', '5', '6', '7', '8', '9'] ∨ x = '.' := by
  obtain ⟨a, b, c, d, _, _, _, _, rfl⟩ := (isIPv4L_iff cs).mp h
  constructor
  · obtain ⟨c0, t0, he⟩ : ∃ c0 t0, decChars a = c0 :: t0 := by
      cases hd : decChars a
      · exact absurd hd (decChars_ne_nil a)
      · exact ⟨_, _, rfl⟩
    refine ⟨c0, t0 ++ '.' :: (decChars b ++ '.' :: (decChars c ++
      '.' :: decChars d)), by rw [he]; rfl, ?_⟩
    exact decChars_mem a c0 (by rw [he]; exact List.mem_cons_self _ _)
  · intro x hx
    simp only [List.mem_append, List.mem_cons] at hx
    rcases hx with hx | rfl | hx | rfl | hx | rfl | hx
    · exact Or.inl (decChars_mem a x hx)
    · exact Or.inr rfl
    · exact Or.inl (decChars_mem b x hx)
    · exact Or.inr rfl
    · exact Or.inl (decChars_mem c x hx)
    · exact Or.inr rfl
    · exact Or.inl (decChars_mem d x hx)

/-! ## The private-address classifier: disjointness of the two branches -/

theorem jsToLowerChar_fixed (c : Char)
    (h : c ∈ ['0', '1', '2', '3', '4', '5', '6', '7', '8', '9'] ∨ c = '.') :
    jsToLowerChar c = c := by
  rcases h with h | rfl
  · fin_cases h <;> decide
  · decide

theorem jsIncludes_head_mem (p : Char) (ps : List Char) :
    ∀ l, jsIncludes (p :: ps) l = true → p ∈ l := by
  intro l
  induction l with
  | nil => intro h; simp [jsIncludes, jsStartsWith] at h
  | cons c rest ih =>
    intro h
    simp only [jsIncludes, Bool.or_eq_true] at h
    rcases h with h | h
    · simp only [jsStartsWith, Bool.and_eq_true, beq_iff_eq] at h
      exact List.mem_cons.mpr (Or.inl h.1.symm)
    · exact List.mem_cons.mpr (Or.inr (ih h))

/-- A strict dotted quad satisfies none of the string-level IPv6
conditions: its head is a digit (after lowercasing, unchanged), while the
conditions force a head of `':'`, `'['` or `'f'`, or a `':'` somewhere in
the string. -/
theorem isIPv4_not_ipv6cond (cs : List Char) (h4 : isIPv4L cs = true) :
    ¬ipv6StringCond (jsToLower cs) := by
  obtain ⟨⟨c0, t0, rfl, hc0⟩, hall⟩ := isIPv4L_chars cs h4
  have hfix : jsToLowerChar c0 = c0 := jsToLowerChar_fixed c0 (Or.inl hc0)
  have hlow : jsToLower (c0 :: t0) = c0 :: jsToLower t0 := by
    simp [jsToLower, hfix]
  intro hcond
  rcases hcond with h | h | h | h | h | h
  · rw [hlow] at h
    have : c0 = ':' := (List.cons.injEq _ _ _ _ ▸ h).1
    rw [this] at hc0
    simp at hc0
  · rw [hlow] at h
    have : c0 = '[' := (List.cons.injEq _ _ _ _ ▸ h).1
    rw [this] at hc0
    simp at hc0
  · obtain ⟨t, ht⟩ := (jsStartsWith_iff _ _).mp h
    rw [hlow] at ht
    have : c0 = 'f' := (List.cons.injEq _ _ _ _ ▸ ht).1
    rw [this] at hc0
    simp at hc0
  · obtain ⟨t, ht⟩ := (jsStartsWith_iff _ _).mp h
    rw [hlow] at ht
    have : c0 = 'f' := (List.cons.injEq _ _ _ _ ▸ ht).1
    rw [this] at hc0
    simp at hc0
  · obtain ⟨t, ht⟩ := (jsStartsWith_iff _ _).mp h
    rw [hlow] at ht
    have : c0 = 'f' := (List.cons.injEq _ _ _ _ ▸ ht).1
    rw [this] at hc0
    simp at hc0
  · have hmem := jsIncludes_head_mem ':' _ _ h
    obtain ⟨x, hx, hxl⟩ := List.mem_map.mp hmem
    have := jsToLowerChar_fixed x (hall x hx)
    rw [this] at hxl
    subst hxl
    rcases hall _ hx with hm | hm
    · simp at hm
    · exact absurd hm (by decide)

/-- C3 (counterexample).  The claim says the classifier flags all of
`fe80::/10` as private; `fe81::1` lies in `fe80::/10` (its first 16-bit
group is `0xfe81`, and `fe80::/10` spans first groups `0xfe80`–`0xfebf`),
yet the classifier returns non-private for it, because the code only tests
the string prefix `fe80:`. -/
theorem private_classifier_counterexample :
    isPrivateIP "fe81::1" = false ∧
    ipv6FirstHextet? "fe81::1" = some 0xfe81 ∧
    0xfe80 ≤ 0xfe81 ∧ 0xfe81 < 0xfec0 := by
  refine ⟨by decide, by decide, by norm_num, by norm_num⟩

/-- C3 (amended, corrected).  The classifier flags a string as private
exactly when it is a strict dotted-quad IPv4 literal in the listed ranges,
or its lowercased form equals `::1` or `[::1]`, starts with `fc`, `fd` or
`fe80:`, or contains `::ffff:` anywhere — string-prefix tests, not IPv6
address-range tests, so parts of `fe80::/10` (e.g. `fe81::1`) pass as
non-private while non-IPv4-mapped strings containing `::ffff:` are
flagged. -/
theorem private_classifier_amended (s : String) :
    isPrivateIP s = true ↔ amendedPrivateSpec s := by
  unfold isPrivateIP isPrivateIPL amendedPrivateSpec
  by_cases h4 : isIPv4L s.data = true
  · rw [if_pos h4]
    constructor
    · intro h
      obtain ⟨a, b, c, d, ha, hb, hc, hd, hdec⟩ := (isIPv4L_iff _).mp h4
      refine Or.inl ⟨a, b, c, d, ha, hb, hc, hd, hdec, ?_⟩
      rw [hdec] at h
      obtain ⟨h0, h1⟩ := octetAt_quad a b c d
      rw [h0, h1] at h
      simp only [Bool.or_eq_true, Bool.and_eq_true, beq_iff_eq,
        decide_eq_true_eq] at h
      unfold quadPrivate
      tauto
    · rintro (⟨a, b, c, d, ha, hb, hc, hd, hdec, hq⟩ | hv6)
      · rw [hdec]
        obtain ⟨h0, h1⟩ := octetAt_quad a b c d
        rw [h0, h1]
        simp only [Bool.or_eq_true, Bool.and_eq_true, beq_iff_eq,
          decide_eq_true_eq]
        unfold quadPrivate at hq
        tauto
      · exact absurd hv6 (isIPv4_not_ipv6cond _ h4)
  · rw [if_neg h4]
    constructor
    · intro h
      refine Or.inr ?_
      unfold ipv6StringCond
      simp only [Bool.or_eq_true, beq_iff_eq] at h
      tauto
    · rintro (⟨a, b, c, d, ha, hb, hc, hd, hdec, hq⟩ | hv6)
      · exact absurd ((isIPv4L_iff _).mpr ⟨a, b, c, d, ha, hb, hc, hd, hdec⟩) h4
      · unfold ipv6StringCond at hv6
        simp only [Bool.or_eq_true, beq_iff_eq]
        tauto

end ImageApp
